import Mathlib

/-!
Shallow embedding of the image-compositing core of the GLTank repository
(`imageScripts/Image.py` and `src/imageScripts/Image.py`), together with
proofs of the specification's claims about it.

Conventions of the embedding:
* A pixel is a quadruple of natural channel values (uint8 values are the
  naturals `≤ 255`); an image is its height, width, channel count and a
  total pixel function (values outside the `height × width` grid are
  irrelevant junk, theorems restrict to in-bounds indices where needed).
* numpy float arithmetic is modelled exactly over `ℚ`; `astype(np.uint8)`
  on a clipped non-negative value is `Int.floor` followed by `Int.toNat`;
  Python `//` on integers is `Int.fdiv`; Python `int()` on a non-negative
  float is `Int.floor`.
* PIL's `Image.resize` (Lanczos resampling) is kept abstract as a
  `Resizer` parameter; the documented Pillow short-circuit — `resize`
  returns a copy when the target size equals the current size — is
  modelled by the `pilResize` wrapper.
-/

/-- An RGBA pixel; channel values are uint8 values embedded in `ℕ`. -/
structure Pix where
  r : ℕ
  g : ℕ
  b : ℕ
  a : ℕ
deriving DecidableEq, Repr

/-- Apply a channel transform to every channel of a pixel
(numpy elementwise array operations act on all channels alike). -/
def Pix.map (f : ℕ → ℕ) (p : Pix) : Pix :=
  ⟨f p.r, f p.g, f p.b, f p.a⟩

/-- All four channels are valid uint8 values. -/
def Pix.le255 (p : Pix) : Prop :=
  p.r ≤ 255 ∧ p.g ≤ 255 ∧ p.b ≤ 255 ∧ p.a ≤ 255

instance (p : Pix) : Decidable p.le255 := by
  unfold Pix.le255; infer_instance

/-- A raster image: dimensions, channel count (3 = RGB, 4 = RGBA) and a
total pixel function (row, column) ↦ pixel. -/
structure Img where
  height : ℕ
  width : ℕ
  channels : ℕ
  pix : ℕ → ℕ → Pix

/-- The fully transparent pixel `emptyPix = [0,0,0,0]` of
`filter_pixels_2x2`. -/
def emptyPix : Pix := ⟨0, 0, 0, 0⟩

/-- The closed set of 2×2 selection modes (the Chinese mode strings of
`filter_pixels_2x2`): 左上角, 右上角, 左下角, 右下角, 左上右下, 右上左下. -/
inductive Type_Position where
  | TopLeft
  | TopRight
  | BottomLeft
  | BottomRight
  | DiagTLBR
  | DiagTRBL
deriving DecidableEq, Repr

open Type_Position

/-- The `(row, col)` cells a 2×2 block with origin `(y, x)` sets to
`emptyPix`, exactly the assignment targets of `filter_pixels_2x2`
(`img_data[y, x+1] = img_data[y+1, x] = ... = emptyPix`). -/
def clearedCells (mode : Type_Position) (y x : ℕ) : List (ℕ × ℕ) :=
  match mode with
  | TopLeft => [(y, x + 1), (y + 1, x), (y + 1, x + 1)]
  | TopRight => [(y, x), (y + 1, x), (y + 1, x + 1)]
  | BottomLeft => [(y, x), (y, x + 1), (y + 1, x + 1)]
  | BottomRight => [(y, x), (y, x + 1), (y + 1, x)]
  | DiagTLBR => [(y, x + 1), (y + 1, x)]
  | DiagTRBL => [(y, x), (y + 1, x + 1)]

/-- One iteration of the inner body of `filter_pixels_2x2`: set the
non-kept cells of the block at origin `(y, x)` fully transparent. -/
def blockClear (mode : Type_Position) (y x : ℕ) (img : ℕ → ℕ → Pix) :
    ℕ → ℕ → Pix :=
  fun r c => if (r, c) ∈ clearedCells mode y x then emptyPix else img r c

/-- Block origins visited by `range(0, n - 1, 2)`: the even indices `k`
with `k < n - 1` (so a block is processed only when its partner row or
column `k + 1` is in range). -/
def blockOrigins (n : ℕ) : List ℕ :=
  (List.range n).filter (fun k => k % 2 == 0 && k + 1 < n)

/-- `filter_pixels_2x2` on RGBA pixel data: the nested block loop
`for y in range(0, height-1, 2): for x in range(0, width-1, 2)`, each
iteration blanking the mode's non-kept cells. (Grayscale/RGB inputs are
first converted to RGBA by the source; the conversion gives every pixel
alpha 255 and is modelled by `ensureRGBA` below.) -/
def filter_pixels_2x2 (img : ℕ → ℕ → Pix) (height width : ℕ)
    (mode : Type_Position) : ℕ → ℕ → Pix :=
  (blockOrigins height).foldl
    (fun acc y =>
      (blockOrigins width).foldl (fun acc2 x => blockClear mode y x acc2) acc)
    img

/-- A cell `(r, c)` is blanked by some processed block of the loop. -/
def cleared (mode : Type_Position) (height width r c : ℕ) : Prop :=
  ∃ y ∈ blockOrigins height, ∃ x ∈ blockOrigins width,
    (r, c) ∈ clearedCells mode y x

instance (mode : Type_Position) (height width r c : ℕ) :
    Decidable (cleared mode height width r c) := by
  unfold cleared; infer_instance

/-- The kept in-block offsets `(dx, dy)` of each mode, as the claim
enumerates them (column offset first). -/
def keptPositionsSpec (mode : Type_Position) : List (ℕ × ℕ) :=
  match mode with
  | TopLeft => [(0, 0)]
  | TopRight => [(1, 0)]
  | BottomLeft => [(0, 1)]
  | BottomRight => [(1, 1)]
  | DiagTLBR => [(0, 0), (1, 1)]
  | DiagTRBL => [(1, 0), (0, 1)]

/-- `max(image1..., image2...)`-style grow-mode blend of
`imageScripts/Image.py`'s `blend_images`: canvas of the maximum
dimensions, zero-filled with alpha forced to 255; `image1`'s RGB is
copied unconditionally at the origin (`new_image[:h1, :w1, :3] =
image1[..., :3]`); then for each `image2` pixel with nonzero alpha only
the RGB channels are copied (`new_image[y, x, :3] = image2[y, x, :3]`). -/
def blend_images (image1 image2 : Img) : Img :=
  let max_width := max image1.width image2.width
  let max_height := max image1.height image2.height
  { height := max_height, width := max_width, channels := 4,
    pix := fun y x =>
      let base : Pix :=
        if y < image1.height ∧ x < image1.width then
          { image1.pix y x with a := 255 }
        else ⟨0, 0, 0, 255⟩
      if y < image2.height ∧ x < image2.width ∧ (image2.pix y x).a ≠ 0 then
        { image2.pix y x with a := base.a }
      else base }

/-- RGB → RGBA promotion: both the `rgba_canvas` construction
(`rgba_canvas[..., :3] = canvas; rgba_canvas[..., 3] = 255`) and PIL's
`convert('RGBA')` on an RGB image (alpha filled with 255); an already
RGBA image is kept as is (`canvas.copy()`). -/
def ensureRGBA (img : Img) : Img :=
  if img.channels = 3 then
    { img with channels := 4, pix := fun y x => { img.pix y x with a := 255 } }
  else img

/-- An abstract resampling backend: source image, target width, target
height ↦ resampled pixel grid. Stands for PIL's Lanczos kernel, whose
pixel values the embedding does not model. -/
def Resizer : Type :=
  Img → ℕ → ℕ → (ℕ → ℕ → Pix)

/-- PIL `Image.resize`: when the requested size equals the current size
Pillow returns an unmodified copy of the image; otherwise the
resampling backend runs. -/
def pilResize (f : Resizer) (img : Img) (w h : ℕ) : ℕ → ℕ → Pix :=
  if img.width = w ∧ img.height = h then img.pix else f img w h

/-- `scale = max(canvas_width / overlay_width, canvas_height /
overlay_height)` of `blend_on_canvas` / `prepare_blend_images`, with the
float divisions idealised to exact `ℚ` arithmetic. The program runs this
in IEEE binary64; `coverScaleF` below models that rounding, and the two
can differ (see `scale_to_cover_float_shortfall`). The exact version is
what both blend paths share, so it is the right level for comparing
them. -/
def coverScale (cw ch ow oh : ℕ) : ℚ :=
  max ((cw : ℚ) / (ow : ℚ)) ((ch : ℚ) / (oh : ℚ))

/-- `new_width = int(overlay_width * scale)` (Python `int()` truncates;
the value is non-negative, so this is a floor), over the exact-`ℚ`
idealisation of the scale; `scaledWF` is the binary64 counterpart. -/
def scaledW (cw ch ow oh : ℕ) : ℕ :=
  (⌊(ow : ℚ) * coverScale cw ch ow oh⌋).toNat

/-- `new_height = int(overlay_height * scale)`, over the exact-`ℚ`
idealisation; `scaledHF` is the binary64 counterpart. -/
def scaledH (cw ch ow oh : ℕ) : ℕ :=
  (⌊(oh : ℚ) * coverScale cw ch ow oh⌋).toNat

/-- Round a rational to the nearest integer, ties to even — the IEEE 754
tie-breaking rule used by every binary64 operation. -/
def rnEven (x : ℚ) : ℤ :=
  if x - (⌊x⌋ : ℚ) < 1 / 2 then ⌊x⌋
  else if (1 : ℚ) / 2 < x - (⌊x⌋ : ℚ) then ⌊x⌋ + 1
  else if ⌊x⌋ % 2 = 0 then ⌊x⌋ else ⌊x⌋ + 1

/-- IEEE binary64 round-to-nearest-even of a non-negative rational in
the normal range: 53 significant bits at the binary exponent
`Int.log 2 q`. Each Python float operation produces the correctly
rounded value of its exact result, which is this function applied to
the exact result (the values arising in the scale computation are far
from overflow and underflow). -/
def roundB64 (q : ℚ) : ℚ :=
  if q = 0 then 0
  else (rnEven (q * 2 ^ ((52 : ℤ) - Int.log 2 q)) : ℚ) * 2 ^ (Int.log 2 q - 52)

/-- `scale = max(cw/ow, ch/oh)` as the program actually computes it in
binary64: the integer dimensions convert to doubles exactly (they are
far below 2^53), each division rounds to nearest, and `max` of two
doubles is exact. -/
def coverScaleF (cw ch ow oh : ℕ) : ℚ :=
  max (roundB64 ((cw : ℚ) / (ow : ℚ))) (roundB64 ((ch : ℚ) / (oh : ℚ)))

/-- `new_width = int(overlay_width * scale)` in binary64: the product
rounds to nearest before `int()` truncates. -/
def scaledWF (cw ch ow oh : ℕ) : ℕ :=
  (⌊roundB64 ((ow : ℚ) * coverScaleF cw ch ow oh)⌋).toNat

/-- `new_height = int(overlay_height * scale)` in binary64. -/
def scaledHF (cw ch ow oh : ℕ) : ℕ :=
  (⌊roundB64 ((oh : ℚ) * coverScaleF cw ch ow oh)⌋).toNat

/-- The placement arithmetic shared verbatim by `blend_on_canvas` and
`prepare_blend_images`: scaled size, centre offsets (Python `//` floors,
hence `Int.fdiv`), the clipped destination window
(`y_start = max(0, offset_y)`, `y_end = min(canvas_height, offset_y +
new_height)`, likewise for x) and the source-window origin
(`img_y_start = max(0, -offset_y)`, likewise for x). -/
structure Placement where
  new_width : ℕ
  new_height : ℕ
  offset_x : ℤ
  offset_y : ℤ
  y_start : ℤ
  y_end : ℤ
  x_start : ℤ
  x_end : ℤ
  img_y_start : ℤ
  img_x_start : ℤ

/-- Compute the placement of an `ow × oh` overlay on a `cw × ch`
canvas. -/
def placement (cw ch ow oh : ℕ) : Placement :=
  let nw := scaledW cw ch ow oh
  let nh := scaledH cw ch ow oh
  let ox : ℤ := Int.fdiv ((cw : ℤ) - (nw : ℤ)) 2
  let oy : ℤ := Int.fdiv ((ch : ℤ) - (nh : ℤ)) 2
  { new_width := nw, new_height := nh, offset_x := ox, offset_y := oy,
    y_start := max 0 oy, y_end := min (ch : ℤ) (oy + (nh : ℤ)),
    x_start := max 0 ox, x_end := min (cw : ℤ) (ox + (nw : ℤ)),
    img_y_start := max 0 (-oy), img_x_start := max 0 (-ox) }

/-- `blend_on_canvas` of `src/imageScripts/Image.py`: promote the canvas
to RGBA; when the sizes agree write the overlay directly (RGBA overlay:
copy whole pixels where alpha > 0; RGB overlay: copy the RGB channels
everywhere, leaving the canvas alpha); otherwise scale the overlay to
cover, centre it (`offset = (canvas - new) // 2`), and copy the scaled
overlay's pixels with alpha > 0 inside the clipped destination window.
(After `convert('RGBA')` the scaled overlay always has four channels, so
the source's RGB branch after scaling is dead code.) -/
def blend_on_canvas (f : Resizer) (canvas overlay : Img) : Img :=
  let rgba_canvas := ensureRGBA canvas
  let canvas_height := rgba_canvas.height
  let canvas_width := rgba_canvas.width
  let overlay_height := overlay.height
  let overlay_width := overlay.width
  if canvas_height = overlay_height ∧ canvas_width = overlay_width then
    if overlay.channels = 4 then
      { rgba_canvas with
        pix := fun y x =>
          if 0 < (overlay.pix y x).a then overlay.pix y x
          else rgba_canvas.pix y x }
    else
      { rgba_canvas with
        pix := fun y x => { overlay.pix y x with a := (rgba_canvas.pix y x).a } }
  else
    let pl := placement canvas_width canvas_height overlay_width overlay_height
    let scaled := pilResize f (ensureRGBA overlay) pl.new_width pl.new_height
    { rgba_canvas with
      pix := fun y x =>
        if pl.y_start ≤ (y : ℤ) ∧ (y : ℤ) < pl.y_end ∧
           pl.x_start ≤ (x : ℤ) ∧ (x : ℤ) < pl.x_end ∧
           0 < (scaled (pl.img_y_start + ((y : ℤ) - pl.y_start)).toNat
                  (pl.img_x_start + ((x : ℤ) - pl.x_start)).toNat).a then
          scaled (pl.img_y_start + ((y : ℤ) - pl.y_start)).toNat
            (pl.img_x_start + ((x : ℤ) - pl.x_start)).toNat
        else rgba_canvas.pix y x }

/-- `prepare_blend_images` of `src/imageScripts/Image.py`: the same
scale/offset/window computation as `blend_on_canvas` (there is no
same-size shortcut here; `pilResize` handles the scale-1 case), placing
the scaled overlay into a fresh transparent canvas (`np.zeros_like`)
without any alpha test, and returning `(ensureRGBA canvas, placed
overlay)`. -/
def prepare_blend_images (f : Resizer) (canvas overlay : Img) : Img × Img :=
  let canvas_height := canvas.height
  let canvas_width := canvas.width
  let overlay_height := overlay.height
  let overlay_width := overlay.width
  let pl := placement canvas_width canvas_height overlay_width overlay_height
  let scaled := pilResize f (ensureRGBA overlay) pl.new_width pl.new_height
  let rgba_canvas := ensureRGBA canvas
  let temp_canvas : Img :=
    { height := rgba_canvas.height, width := rgba_canvas.width,
      channels := rgba_canvas.channels,
      pix := fun y x =>
        if pl.y_start ≤ (y : ℤ) ∧ (y : ℤ) < pl.y_end ∧
           pl.x_start ≤ (x : ℤ) ∧ (x : ℤ) < pl.x_end then
          scaled (pl.img_y_start + ((y : ℤ) - pl.y_start)).toNat
            (pl.img_x_start + ((x : ℤ) - pl.x_start)).toNat
        else ⟨0, 0, 0, 0⟩ }
  (rgba_canvas, temp_canvas)

/-- `np.clip(v, lo, hi)`. -/
def clip (lo hi v : ℚ) : ℚ := min hi (max lo v)

/-- The per-channel arithmetic of `adjust_levels`, over `ℚ`: normalise
`v/255`, shift/scale by the input range and clip to `[0,1]`, apply the
gamma curve `g` (`np.power(·, gamma)`, kept abstract; `g = id` is
`gamma = 1.0`), rescale to the output range, clip to `[0,255]` and
truncate to uint8. -/
def adjustChannel (in_min in_max out_min out_max : ℚ) (g : ℚ → ℚ)
    (v : ℕ) : ℕ :=
  let x : ℚ := (v : ℚ) / 255
  let y := clip 0 1 ((x - in_min / 255) * (255 / (in_max - in_min)))
  let z := g y
  let w := clip 0 255 (z * (out_max - out_min) + out_min)
  (⌊w⌋).toNat

/-- `adjust_levels`: when `in_range = in_max - in_min` is zero the
Python scalar division `255.0 / in_range` raises `ZeroDivisionError`
before any array arithmetic happens; otherwise every channel of every
pixel is mapped through `adjustChannel`. -/
def adjust_levels (img : Img) (in_min in_max out_min out_max : ℚ)
    (g : ℚ → ℚ) : Except String Img :=
  if in_max - in_min = 0 then
    Except.error "ZeroDivisionError: float division by zero"
  else
    Except.ok
      { img with
        pix := fun y x =>
          (img.pix y x).map (adjustChannel in_min in_max out_min out_max g) }

/-- `get_max_image_dimensions` over the (width, height) sizes read from
the image headers: running maxima starting from `(0, 0)`. -/
def get_max_image_dimensions (images : List (ℕ × ℕ)) : ℕ × ℕ :=
  images.foldl (fun acc wh => (max acc.1 wh.1, max acc.2 wh.2)) (0, 0)

/-- The collision-probe loop of `save_image`:
`while os.path.exists(final_path): final_path = f"{base}-{counter}{ext}";
counter += 1`, unfolded with explicit fuel (the loop terminates because
the filesystem holds finitely many paths; `save_resolve` supplies enough
fuel). A path is `none` for `<base>.png` and `some k` for `<base>-k.png`. -/
def findFree (fs : Finset (Option ℕ)) : ℕ → ℕ → ℕ
  | 0, counter => counter
  | fuel + 1, counter =>
    if some counter ∈ fs then findFree fs fuel (counter + 1) else counter

/-- Path resolution of `save_image` for a bare base name: the existing
paths relevant to the base name are the finite set `fs`; the result is
`<base>.png` when it is free, and otherwise the path the probe loop
stops at. -/
def save_resolve (fs : Finset (Option ℕ)) : Option ℕ :=
  if none ∈ fs then some (findFree fs (fs.card + 1) 1) else none

/-- Pointwise equality of images on their common grid: same dimensions
and channel count, and equal pixels at every in-bounds index. -/
def ImgEq (A B : Img) : Prop :=
  A.height = B.height ∧ A.width = B.width ∧ A.channels = B.channels ∧
  ∀ y x, y < A.height → x < A.width → A.pix y x = B.pix y x

/-- Evaluation of the inner `for x in range(0, width-1, 2)` loop at one
cell: the cell is blanked exactly when some visited block blanks it. -/
theorem foldl_blockClear_eval (mode : Type_Position) (y : ℕ) :
    ∀ (xs : List ℕ) (img : ℕ → ℕ → Pix) (r c : ℕ),
      (xs.foldl (fun acc x => blockClear mode y x acc) img) r c =
        if ∃ x ∈ xs, (r, c) ∈ clearedCells mode y x then emptyPix else img r c := by
  intro xs
  induction xs with
  | nil => intro img r c; simp
  | cons x xs ih =>
    intro img r c
    rw [List.foldl_cons, ih]
    by_cases h1 : ∃ x' ∈ xs, (r, c) ∈ clearedCells mode y x'
    · rw [if_pos h1,
        if_pos (by obtain ⟨x', hx', hm⟩ := h1; exact ⟨x', List.mem_cons_of_mem _ hx', hm⟩)]
    · rw [if_neg h1]
      by_cases h2 : (r, c) ∈ clearedCells mode y x
      · rw [if_pos ⟨x, List.mem_cons_self _ _, h2⟩]
        simp [blockClear, h2]
      · rw [if_neg (by
          rintro ⟨x', hx', hm⟩
          rcases List.mem_cons.mp hx' with rfl | hx'
          exacts [h2 hm, h1 ⟨x', hx', hm⟩])]
        simp [blockClear, h2]

/-- Evaluation of the outer row loop at one cell. -/
theorem foldl_rows_eval (mode : Type_Position) (w : ℕ) :
    ∀ (ys : List ℕ) (img : ℕ → ℕ → Pix) (r c : ℕ),
      (ys.foldl (fun acc y =>
          (blockOrigins w).foldl (fun acc2 x => blockClear mode y x acc2) acc) img) r c =
        if ∃ y ∈ ys, ∃ x ∈ blockOrigins w, (r, c) ∈ clearedCells mode y x then emptyPix
        else img r c := by
  intro ys
  induction ys with
  | nil => intro img r c; simp
  | cons y ys ih =>
    intro img r c
    rw [List.foldl_cons, ih]
    by_cases h1 : ∃ y' ∈ ys, ∃ x ∈ blockOrigins w, (r, c) ∈ clearedCells mode y' x
    · rw [if_pos h1,
        if_pos (by obtain ⟨y', hy', hm⟩ := h1; exact ⟨y', List.mem_cons_of_mem _ hy', hm⟩)]
    · rw [if_neg h1, foldl_blockClear_eval]
      by_cases h2 : ∃ x ∈ blockOrigins w, (r, c) ∈ clearedCells mode y x
      · rw [if_pos h2, if_pos ⟨y, List.mem_cons_self _ _, h2⟩]
      · rw [if_neg h2, if_neg (by
          rintro ⟨y', hy', hm⟩
          rcases List.mem_cons.mp hy' with rfl | hy'
          exacts [h2 hm, h1 ⟨y', hy', hm⟩])]

/-- Closed form of the block loop: a cell is `emptyPix` iff some
processed block blanks it, and is the original pixel otherwise. -/
theorem filter_pixels_2x2_eval (img : ℕ → ℕ → Pix) (height width : ℕ)
    (mode : Type_Position) (r c : ℕ) :
    filter_pixels_2x2 img height width mode r c =
      if cleared mode height width r c then emptyPix else img r c := by
  unfold filter_pixels_2x2 cleared
  rw [foldl_rows_eval]

/-- The visited block origins are exactly the even indices with an
in-range partner. -/
theorem mem_blockOrigins {y n : ℕ} : y ∈ blockOrigins n ↔ y % 2 = 0 ∧ y + 1 < n := by
  simp only [blockOrigins, List.mem_filter, List.mem_range, Bool.and_eq_true, beq_iff_eq,
    decide_eq_true_eq]
  omega

/-- A blanked cell lies inside the 2×2 block of its origin. -/
theorem clearedCells_row_col {mode : Type_Position} {y x r c : ℕ}
    (h : (r, c) ∈ clearedCells mode y x) :
    (r = y ∨ r = y + 1) ∧ (c = x ∨ c = x + 1) := by
  cases mode <;> simp [clearedCells, Prod.ext_iff] at h <;> omega

/-- C4: for every image and mode, within each processed 2×2 block
(origin at even row/column indices with a valid partner row and column)
`filter_pixels_2x2` blanks the non-selected positions to RGBA
`(0,0,0,0)` and leaves the selected position(s) — TopLeft `(0,0)`,
TopRight `(1,0)`, BottomLeft `(0,1)`, BottomRight `(1,1)`, the diagonal
modes their two offsets, `(dx, dy)` = (column, row) offset — with their
original colour and alpha. -/
theorem filter_pixels_2x2_block (img : ℕ → ℕ → Pix) (h w : ℕ) (mode : Type_Position)
    (y x dy dx : ℕ) (hy2 : y % 2 = 0) (hx2 : x % 2 = 0) (hy : y + 1 < h) (hx : x + 1 < w)
    (hdy : dy < 2) (hdx : dx < 2) :
    filter_pixels_2x2 img h w mode (y + dy) (x + dx) =
      if (dx, dy) ∈ keptPositionsSpec mode then img (y + dy) (x + dx) else emptyPix := by
  rw [filter_pixels_2x2_eval]
  have hcl : cleared mode h w (y + dy) (x + dx) ↔ (dx, dy) ∉ keptPositionsSpec mode := by
    constructor
    · rintro ⟨y', hy', x', hx', hmem⟩
      rw [mem_blockOrigins] at hy' hx'
      have hb := clearedCells_row_col hmem
      have hyy : y' = y := by omega
      have hxx : x' = x := by omega
      subst hyy; subst hxx
      interval_cases dy <;> interval_cases dx <;> cases mode <;>
        simp_all [clearedCells, keptPositionsSpec, Prod.ext_iff]
    · intro hk
      refine ⟨y, mem_blockOrigins.mpr ⟨hy2, hy⟩, x, mem_blockOrigins.mpr ⟨hx2, hx⟩, ?_⟩
      interval_cases dy <;> interval_cases dx <;> cases mode <;>
        simp_all [clearedCells, keptPositionsSpec, Prod.ext_iff]
  by_cases hkept : (dx, dy) ∈ keptPositionsSpec mode
  · rw [if_pos hkept, if_neg (by rw [hcl]; exact not_not_intro hkept)]
  · rw [if_neg hkept, if_pos (hcl.mpr hkept)]

/-- Witness for C4 at a concrete block: in a 2×2 image under `TopLeft`,
the offset `(dx, dy) = (1, 1)` is not kept and is blanked. -/
theorem filter_pixels_2x2_block_witness :
    filter_pixels_2x2 (fun r c => ⟨r, c, 3, 9⟩) 2 2 Type_Position.TopLeft (0 + 1) (0 + 1) =
      emptyPix := by
  have := filter_pixels_2x2_block (fun r c => ⟨r, c, 3, 9⟩) 2 2 Type_Position.TopLeft
    0 0 1 1 rfl rfl (by decide) (by decide) (by decide) (by decide)
  simpa using this

/-- C5: when the height and/or width is odd, the final unpaired row
and/or column is never visited by the block loop and stays byte-identical
to the input, for every mode. -/
theorem filter_pixels_2x2_odd_boundary (img : ℕ → ℕ → Pix) (h w : ℕ)
    (mode : Type_Position) (r c : ℕ)
    (hrc : (h % 2 = 1 ∧ r = h - 1) ∨ (w % 2 = 1 ∧ c = w - 1)) :
    filter_pixels_2x2 img h w mode r c = img r c := by
  rw [filter_pixels_2x2_eval, if_neg]
  rintro ⟨y, hy, x, hx, hmem⟩
  rw [mem_blockOrigins] at hy hx
  have hb := clearedCells_row_col hmem
  omega

/-- Witness for C5 on a height-5, width-7 image: row index 4 and column
index 6 are unchanged. -/
theorem filter_pixels_2x2_odd_boundary_witness :
    filter_pixels_2x2 (fun r c => ⟨r, c, 7, 9⟩) 5 7 Type_Position.DiagTLBR 4 2 =
        (⟨4, 2, 7, 9⟩ : Pix) ∧
    filter_pixels_2x2 (fun r c => ⟨r, c, 7, 9⟩) 5 7 Type_Position.DiagTLBR 1 6 =
        (⟨1, 6, 7, 9⟩ : Pix) :=
  ⟨filter_pixels_2x2_odd_boundary _ 5 7 _ 4 2 (Or.inl ⟨rfl, rfl⟩),
   filter_pixels_2x2_odd_boundary _ 5 7 _ 1 6 (Or.inr ⟨rfl, rfl⟩)⟩

/-- C8: applying `filter_pixels_2x2` twice with the same mode is bitwise
identical to applying it once: already-blank cells stay blank and kept
cells stay kept. -/
theorem filter_pixels_2x2_idempotent (img : ℕ → ℕ → Pix) (h w : ℕ)
    (mode : Type_Position) :
    filter_pixels_2x2 (filter_pixels_2x2 img h w mode) h w mode =
      filter_pixels_2x2 img h w mode := by
  funext r c
  rw [filter_pixels_2x2_eval (filter_pixels_2x2 img h w mode)]
  by_cases hc : cleared mode h w r c
  · rw [if_pos hc, filter_pixels_2x2_eval, if_pos hc]
  · rw [if_neg hc]

/-- C2: when `in_max` equals `in_min` the levels mapping fails cleanly —
the scalar division `255.0 / (in_max - in_min)` raises
`ZeroDivisionError`, so no result (NaN-laden or otherwise) is returned;
proved for every image, every remaining parameter and every gamma
curve. -/
theorem adjust_levels_equal_range (img : Img) (m out_min out_max : ℚ) (g : ℚ → ℚ) :
    adjust_levels img m m out_min out_max g =
      Except.error "ZeroDivisionError: float division by zero" := by
  simp [adjust_levels]

/-- With default levels parameters the per-channel transform is the
identity on uint8 values. -/
theorem adjustChannel_default_id (v : ℕ) (hv : v ≤ 255) :
    adjustChannel 0 255 0 255 (fun q => q) v = v := by
  have h0 : (0 : ℚ) ≤ (v : ℚ) / 255 := by positivity
  have h1 : (v : ℚ) / 255 ≤ 1 := by
    rw [div_le_one (by norm_num)]
    exact_mod_cast hv
  have e1 : ((v : ℚ) / 255 - 0 / 255) * (255 / (255 - 0)) = (v : ℚ) / 255 := by ring
  have e2 : clip 0 1 ((v : ℚ) / 255) = (v : ℚ) / 255 := by
    rw [clip, max_eq_right h0, min_eq_right h1]
  have e3 : (v : ℚ) / 255 * (255 - 0) + 0 = (v : ℚ) := by field_simp
  have e4 : clip 0 255 (v : ℚ) = (v : ℚ) := by
    rw [clip, max_eq_right (by positivity), min_eq_right (by exact_mod_cast hv)]
  simp only [adjustChannel, e1, e2, e3, e4]
  rw [Int.floor_natCast, Int.toNat_natCast]

/-- C7: with default parameters `(0, 255, 0, 255, gamma = 1.0)` the
levels mapping succeeds and is the identity transform on every in-bounds
pixel (exactly — hence in particular within the claimed ±1 rounding
per channel). -/
theorem adjust_levels_default_identity (img : Img)
    (h255 : ∀ y x, y < img.height → x < img.width → (img.pix y x).le255) :
    ∃ out, adjust_levels img 0 255 0 255 (fun q => q) = Except.ok out ∧
      out.height = img.height ∧ out.width = img.width ∧ out.channels = img.channels ∧
      ∀ y x, y < img.height → x < img.width → out.pix y x = img.pix y x := by
  refine ⟨{ img with
      pix := fun y x => (img.pix y x).map (adjustChannel 0 255 0 255 (fun q => q)) },
    by rw [adjust_levels, if_neg (by norm_num)], rfl, rfl, rfl, ?_⟩
  intro y x hy hx
  obtain ⟨h1, h2, h3, h4⟩ := h255 y x hy hx
  show (img.pix y x).map (adjustChannel 0 255 0 255 (fun q => q)) = img.pix y x
  cases hpx : img.pix y x with
  | mk pr pg pb pa =>
    rw [hpx] at h1 h2 h3 h4
    simp only [Pix.map, adjustChannel_default_id _ h1, adjustChannel_default_id _ h2,
      adjustChannel_default_id _ h3, adjustChannel_default_id _ h4]

/-- Witness for C7 at a concrete 1×1 image. -/
theorem adjust_levels_default_identity_witness :
    ∃ out,
      adjust_levels ⟨1, 1, 4, fun _ _ => ⟨5, 250, 0, 255⟩⟩ 0 255 0 255 (fun q => q) =
        Except.ok out ∧
      out.height = 1 ∧ out.width = 1 ∧ out.channels = 4 ∧
      ∀ y x, y < 1 → x < 1 → out.pix y x = ⟨5, 250, 0, 255⟩ :=
  adjust_levels_default_identity ⟨1, 1, 4, fun _ _ => ⟨5, 250, 0, 255⟩⟩
    (fun _ _ _ _ => (by decide : Pix.le255 ⟨5, 250, 0, 255⟩))

/-- In exact rational arithmetic scale-to-cover never produces a size
smaller than the canvas in either axis, because `cw`, `ch` are integers
and the floor of `ow * (cw/ow)` cannot drop below `cw`. This is the
intent the code states for itself; the program's binary64 arithmetic
breaks it on concrete inputs — see `scale_to_cover_float_shortfall`. -/
theorem scale_to_cover_ge (ow oh cw ch : ℕ) (how : 0 < ow) (hoh : 0 < oh)
    (hcw : 0 < cw) (hch : 0 < ch) :
    cw ≤ scaledW cw ch ow oh ∧ ch ≤ scaledH cw ch ow oh := by
  have how' : ((ow : ℚ)) ≠ 0 := by positivity
  have hoh' : ((oh : ℚ)) ≠ 0 := by positivity
  constructor
  · have h1 : (cw : ℚ) ≤ (ow : ℚ) * coverScale cw ch ow oh := by
      calc (cw : ℚ) = (ow : ℚ) * ((cw : ℚ) / (ow : ℚ)) := by field_simp
        _ ≤ (ow : ℚ) * coverScale cw ch ow oh := by
            exact mul_le_mul_of_nonneg_left (le_max_left _ _) (by positivity)
    have h2 : (cw : ℤ) ≤ ⌊(ow : ℚ) * coverScale cw ch ow oh⌋ := by
      rw [Int.le_floor]
      exact_mod_cast h1
    have h3 : (0 : ℤ) ≤ ⌊(ow : ℚ) * coverScale cw ch ow oh⌋ := le_trans (by positivity) h2
    exact (Int.le_toNat h3).mpr h2
  · have h1 : (ch : ℚ) ≤ (oh : ℚ) * coverScale cw ch ow oh := by
      calc (ch : ℚ) = (oh : ℚ) * ((ch : ℚ) / (oh : ℚ)) := by field_simp
        _ ≤ (oh : ℚ) * coverScale cw ch ow oh := by
            exact mul_le_mul_of_nonneg_left (le_max_right _ _) (by positivity)
    have h2 : (ch : ℤ) ≤ ⌊(oh : ℚ) * coverScale cw ch ow oh⌋ := by
      rw [Int.le_floor]
      exact_mod_cast h1
    have h3 : (0 : ℤ) ≤ ⌊(oh : ℚ) * coverScale cw ch ow oh⌋ := le_trans (by positivity) h2
    exact (Int.le_toNat h3).mpr h2

/-- `Int.log 2` is pinned by the two power bounds. -/
theorem Int_log_eq_of_bounds {q : ℚ} {e : ℤ} (hq : 0 < q)
    (h1 : (2 : ℚ) ^ e ≤ q) (h2 : q < (2 : ℚ) ^ (e + 1)) :
    Int.log 2 q = e := by
  have hle : e ≤ Int.log 2 q := (Int.zpow_le_iff_le_log (by norm_num) hq).mp h1
  have hlt : Int.log 2 q < e + 1 := (Int.lt_zpow_iff_log_lt (by norm_num) hq).mp h2
  omega

/-- The correctly rounded binary64 value of `1/49` (= `100/4900`): the
exact quotient `2^58/49` has fractional part `23/49 < 1/2`, so the
53-bit significand rounds down. -/
theorem roundB64_one_div_49 : roundB64 (1 / 49) = 5882252574524729 / 2 ^ 58 := by
  have hlog : Int.log 2 ((1 : ℚ) / 49) = -6 :=
    Int_log_eq_of_bounds (by norm_num) (by norm_num) (by norm_num)
  rw [roundB64, if_neg (by norm_num), hlog]
  have hx : (1 : ℚ) / 49 * 2 ^ ((52 : ℤ) - (-6)) = 288230376151711744 / 49 := by
    norm_num
  rw [hx]
  have hfl : (⌊(288230376151711744 : ℚ) / 49⌋ : ℤ) = 5882252574524729 := by
    norm_num [Int.floor_eq_iff]
  have hrn : rnEven ((288230376151711744 : ℚ) / 49) = 5882252574524729 := by
    rw [rnEven, hfl, if_pos (by norm_num)]
  rw [hrn]
  norm_num

/-- The binary64 scale the program computes for a 4900×4900 overlay on
a 100×100 canvas. -/
theorem coverScaleF_100_4900 :
    coverScaleF 100 100 4900 4900 = 5882252574524729 / 2 ^ 58 := by
  have h : ((100 : ℕ) : ℚ) / ((4900 : ℕ) : ℚ) = 1 / 49 := by norm_num
  rw [coverScaleF, h, roundB64_one_div_49, max_self]

/-- The binary64 product `4900 * scale` rounds to just below 100: the
exact product is `100·(1 − 23/2^58)` and its 53-bit rounding stays
below 100. -/
theorem roundB64_product :
    roundB64 ((4900 : ℚ) * (5882252574524729 / 2 ^ 58)) = 7036874417766399 / 2 ^ 46 := by
  have hq : (4900 : ℚ) * (5882252574524729 / 2 ^ 58) = 28823037615171172100 / 2 ^ 58 := by
    norm_num
  rw [hq]
  have hlog : Int.log 2 ((28823037615171172100 : ℚ) / 2 ^ 58) = 6 :=
    Int_log_eq_of_bounds (by norm_num) (by norm_num) (by norm_num)
  rw [roundB64, if_neg (by norm_num), hlog]
  have hx : (28823037615171172100 : ℚ) / 2 ^ 58 * 2 ^ ((52 : ℤ) - 6) =
      28823037615171172100 / 4096 := by
    norm_num
  rw [hx]
  have hfl : (⌊(28823037615171172100 : ℚ) / 4096⌋ : ℤ) = 7036874417766399 := by
    norm_num [Int.floor_eq_iff]
  have hrn : rnEven ((28823037615171172100 : ℚ) / 4096) = 7036874417766399 := by
    rw [rnEven, hfl, if_pos (by norm_num)]
  rw [hrn]
  norm_num

/-- C3: the claim is the code's own stated intent (the comment above the
computation calls it the minimal size able to cover the canvas, and
`scale_to_cover_ge` shows the formula does guarantee it in exact
arithmetic), but the program's IEEE binary64 arithmetic violates it: for
a 4900×4900 overlay on a 100×100 canvas, `new_width = int(4900 *
(100/4900))` evaluates to 99 < 100 in doubles (`100/4900` rounds to
`5882252574524729/2^58` and the product rounds to just below 100, which
`int()` truncates), one pixel short of covering — likewise for the
height. -/
theorem scale_to_cover_float_shortfall :
    scaledWF 100 100 4900 4900 = 99 ∧ scaledHF 100 100 4900 4900 = 99 := by
  have hW : ((4900 : ℕ) : ℚ) * coverScaleF 100 100 4900 4900 =
      (4900 : ℚ) * (5882252574524729 / 2 ^ 58) := by
    rw [coverScaleF_100_4900]
    norm_num
  constructor
  · rw [scaledWF, hW, roundB64_product]
    have hfl : (⌊(7036874417766399 : ℚ) / 2 ^ 46⌋ : ℤ) = 99 := by
      norm_num [Int.floor_eq_iff]
    rw [hfl]
    rfl
  · rw [scaledHF, hW, roundB64_product]
    have hfl : (⌊(7036874417766399 : ℚ) / 2 ^ 46⌋ : ℤ) = 99 := by
      norm_num [Int.floor_eq_iff]
    rw [hfl]
    rfl

/-- Running-maximum fold of the dimension probe, with an arbitrary
accumulator. -/
theorem foldl_max_dims (l : List (ℕ × ℕ)) :
    ∀ a b : ℕ, l.foldl (fun acc wh => (max acc.1 wh.1, max acc.2 wh.2)) (a, b) =
      (max a ((l.map Prod.fst).foldr max 0), max b ((l.map Prod.snd).foldr max 0)) := by
  induction l with
  | nil => intro a b; simp
  | cons p l ih =>
    intro a b
    simp only [List.foldl_cons, List.map_cons, List.foldr_cons]
    rw [ih]
    simp [Prod.ext_iff, max_assoc]

/-- C10: the dimension probe returns the componentwise maxima of the
widths and heights over the whole list, and returns exactly `(0, 0)` for
the empty list without failing. -/
theorem get_max_image_dimensions_spec :
    get_max_image_dimensions [] = (0, 0) ∧
    ∀ images : List (ℕ × ℕ),
      get_max_image_dimensions images =
        ((images.map Prod.fst).foldr max 0, (images.map Prod.snd).foldr max 0) := by
  constructor
  · rfl
  · intro images
    unfold get_max_image_dimensions
    rw [foldl_max_dims]
    simp

/-- The probe loop of `save_image` returns the first free numbered path
at or after `counter`, provided a free one lies within the fuel
window. -/
theorem findFree_spec (fs : Finset (Option ℕ)) :
    ∀ (fuel counter : ℕ), (∃ j, counter ≤ j ∧ j < counter + fuel ∧ some j ∉ fs) →
      some (findFree fs fuel counter) ∉ fs ∧ counter ≤ findFree fs fuel counter ∧
      ∀ j, counter ≤ j → j < findFree fs fuel counter → some j ∈ fs := by
  intro fuel
  induction fuel with
  | zero =>
    rintro counter ⟨j, hj1, hj2, _⟩
    omega
  | succ n ih =>
    intro counter hex
    by_cases hc : some counter ∈ fs
    · rw [findFree, if_pos hc]
      have hex' : ∃ j, counter + 1 ≤ j ∧ j < counter + 1 + n ∧ some j ∉ fs := by
        obtain ⟨j, h1, h2, h3⟩ := hex
        rcases Nat.eq_or_lt_of_le h1 with rfl | h
        · exact absurd hc h3
        · exact ⟨j, h, by omega, h3⟩
      obtain ⟨g1, g2, g3⟩ := ih (counter + 1) hex'
      refine ⟨g1, by omega, ?_⟩
      intro j hj1 hj2
      rcases Nat.eq_or_lt_of_le hj1 with rfl | h
      · exact hc
      · exact g3 j h hj2
    · rw [findFree, if_neg hc]
      exact ⟨hc, le_refl _, fun j h1 h2 => absurd (lt_of_le_of_lt h1 h2) (lt_irrefl _)⟩

/-- Pigeonhole: a finite filesystem cannot occupy all of the numbered
paths `1 .. card + 1`, so `save_resolve`'s fuel always suffices. -/
theorem exists_free_slot (fs : Finset (Option ℕ)) :
    ∃ j, 1 ≤ j ∧ j < 1 + (fs.card + 1) ∧ some j ∉ fs := by
  by_contra hall
  push_neg at hall
  have hsub : (Finset.Icc 1 (fs.card + 1)).image some ⊆ fs := by
    intro p hp
    simp only [Finset.mem_image, Finset.mem_Icc] at hp
    obtain ⟨j, ⟨hj1, hj2⟩, rfl⟩ := hp
    exact hall j hj1 (by omega)
  have hcard := Finset.card_le_card hsub
  rw [Finset.card_image_of_injective _ (Option.some_injective ℕ), Nat.card_Icc] at hcard
  omega

/-- C9: for every set of already-existing paths, a bare base name
resolves to `<base>.png` (`none`) when that path is free; otherwise it
resolves to `<base>-k.png` for the least `k ≥ 1` whose path does not
exist (first-fit: `k` is free and every numbered path below `k` is
taken). -/
theorem save_resolve_spec (fs : Finset (Option ℕ)) :
    (none ∉ fs → save_resolve fs = none) ∧
    (none ∈ fs → ∃ k, save_resolve fs = some k ∧ 1 ≤ k ∧ some k ∉ fs ∧
      ∀ j, 1 ≤ j → j < k → some j ∈ fs) := by
  constructor
  · intro h
    rw [save_resolve, if_neg h]
  · intro h
    obtain ⟨g1, g2, g3⟩ := findFree_spec fs (fs.card + 1) 1 (exists_free_slot fs)
    exact ⟨findFree fs (fs.card + 1) 1, by rw [save_resolve, if_pos h], g2, g1, g3⟩

/-- Witness for C9, the claim's own example: with `foo.png` and
`foo-1.png` both taken, the resolver picks `foo-2.png`. -/
theorem save_resolve_spec_witness :
    (∃ k, save_resolve {none, some 1} = some k ∧ 1 ≤ k ∧
      some k ∉ ({none, some 1} : Finset (Option ℕ)) ∧
      ∀ j, 1 ≤ j → j < k → some j ∈ ({none, some 1} : Finset (Option ℕ))) ∧
    save_resolve {none, some 1} = some 2 :=
  ⟨(save_resolve_spec {none, some 1}).2 (by decide), by decide⟩

/-- An RGBA image passes through the RGBA-promotion unchanged. -/
theorem ensureRGBA_of_four (img : Img) (h : img.channels = 4) : ensureRGBA img = img := by
  rw [ensureRGBA, if_neg (by omega)]

/-- RGBA promotion preserves the height. -/
theorem ensureRGBA_height (img : Img) : (ensureRGBA img).height = img.height := by
  rw [ensureRGBA]; split <;> rfl

/-- RGBA promotion preserves the width. -/
theorem ensureRGBA_width (img : Img) : (ensureRGBA img).width = img.width := by
  rw [ensureRGBA]; split <;> rfl

/-- RGBA promotion of a 3- or 4-channel image yields four channels. -/
theorem ensureRGBA_channels (img : Img) (h : img.channels = 3 ∨ img.channels = 4) :
    (ensureRGBA img).channels = 4 := by
  rcases h with h | h
  · rw [ensureRGBA, if_pos h]
  · rw [ensureRGBA, if_neg (by omega), h]

/-- C1 (amended): for equal canvas/overlay dimensions both blend
operations apply the alpha test `source alpha > 0`, but only
`blend_on_canvas` copies the source pixel's full RGBA; `blend_images`
copies only the RGB channels of a passing source pixel and leaves the
destination alpha at the canvas value 255; under an alpha-0 source
pixel both leave the destination colour unchanged (`blend_images` on
its canvas whose alpha is forced to 255). -/
theorem alpha_test_blend (f : Resizer) (canvas overlay : Img)
    (hc : canvas.channels = 4) (ho : overlay.channels = 4)
    (hh : canvas.height = overlay.height) (hw : canvas.width = overlay.width)
    (y x : ℕ) (hy : y < canvas.height) (hx : x < canvas.width) :
    (0 < (overlay.pix y x).a →
        (blend_on_canvas f canvas overlay).pix y x = overlay.pix y x) ∧
    ((overlay.pix y x).a = 0 →
        (blend_on_canvas f canvas overlay).pix y x = canvas.pix y x) ∧
    (0 < (overlay.pix y x).a →
        (blend_images canvas overlay).pix y x = { overlay.pix y x with a := 255 }) ∧
    ((overlay.pix y x).a = 0 →
        (blend_images canvas overlay).pix y x = { canvas.pix y x with a := 255 }) := by
  have hE : ensureRGBA canvas = canvas := ensureRGBA_of_four canvas hc
  have hB : ∀ z w : ℕ, (blend_on_canvas f canvas overlay).pix z w =
      if 0 < (overlay.pix z w).a then overlay.pix z w else canvas.pix z w := by
    intro z w
    rw [blend_on_canvas]
    rw [hE]
    rw [if_pos ⟨hh, hw⟩, if_pos ho]
  refine ⟨?_, ?_, ?_, ?_⟩
  · intro ha
    rw [hB, if_pos ha]
  · intro ha
    rw [hB, if_neg (by omega)]
  · intro ha
    show (let base : Pix := if y < canvas.height ∧ x < canvas.width then
            { canvas.pix y x with a := 255 } else ⟨0, 0, 0, 255⟩
          if y < overlay.height ∧ x < overlay.width ∧ (overlay.pix y x).a ≠ 0 then
            { overlay.pix y x with a := base.a }
          else base) = { overlay.pix y x with a := 255 }
    rw [if_pos ⟨hh ▸ hy, hw ▸ hx, by omega⟩]
    rw [if_pos ⟨hy, hx⟩]
  · intro ha
    show (let base : Pix := if y < canvas.height ∧ x < canvas.width then
            { canvas.pix y x with a := 255 } else ⟨0, 0, 0, 255⟩
          if y < overlay.height ∧ x < overlay.width ∧ (overlay.pix y x).a ≠ 0 then
            { overlay.pix y x with a := base.a }
          else base) = { canvas.pix y x with a := 255 }
    rw [if_neg (by simp [ha])]
    rw [if_pos ⟨hy, hx⟩]

/-- Counterexample to C1 as stated: `blend_images` does not copy the
source pixel's full RGBA — a 1×1 overlay pixel `(1,2,3,200)` with
alpha 200 > 0 lands as `(1,2,3,255)`, not `(1,2,3,200)`. -/
theorem blend_images_partial_alpha_counterexample :
    0 < ((⟨1, 1, 4, fun _ _ => ⟨1, 2, 3, 200⟩⟩ : Img).pix 0 0).a ∧
    (blend_images ⟨1, 1, 4, fun _ _ => ⟨10, 20, 30, 40⟩⟩
        ⟨1, 1, 4, fun _ _ => ⟨1, 2, 3, 200⟩⟩).pix 0 0 ≠
      (⟨1, 1, 4, fun _ _ => ⟨1, 2, 3, 200⟩⟩ : Img).pix 0 0 := by
  constructor
  · decide
  · decide

/-- Witness for the amended C1 at a concrete pair of 1×1 RGBA images. -/
theorem alpha_test_blend_witness :
    (0 < ((⟨1, 1, 4, fun _ _ => ⟨1, 2, 3, 50⟩⟩ : Img).pix 0 0).a →
        (blend_on_canvas (fun _ _ _ _ _ => emptyPix)
            ⟨1, 1, 4, fun _ _ => ⟨9, 9, 9, 9⟩⟩
            ⟨1, 1, 4, fun _ _ => ⟨1, 2, 3, 50⟩⟩).pix 0 0 =
          (⟨1, 1, 4, fun _ _ => ⟨1, 2, 3, 50⟩⟩ : Img).pix 0 0) ∧
    (((⟨1, 1, 4, fun _ _ => ⟨1, 2, 3, 50⟩⟩ : Img).pix 0 0).a = 0 →
        (blend_on_canvas (fun _ _ _ _ _ => emptyPix)
            ⟨1, 1, 4, fun _ _ => ⟨9, 9, 9, 9⟩⟩
            ⟨1, 1, 4, fun _ _ => ⟨1, 2, 3, 50⟩⟩).pix 0 0 =
          (⟨1, 1, 4, fun _ _ => ⟨9, 9, 9, 9⟩⟩ : Img).pix 0 0) ∧
    (0 < ((⟨1, 1, 4, fun _ _ => ⟨1, 2, 3, 50⟩⟩ : Img).pix 0 0).a →
        (blend_images ⟨1, 1, 4, fun _ _ => ⟨9, 9, 9, 9⟩⟩
            ⟨1, 1, 4, fun _ _ => ⟨1, 2, 3, 50⟩⟩).pix 0 0 =
          { (⟨1, 1, 4, fun _ _ => ⟨1, 2, 3, 50⟩⟩ : Img).pix 0 0 with a := 255 }) ∧
    (((⟨1, 1, 4, fun _ _ => ⟨1, 2, 3, 50⟩⟩ : Img).pix 0 0).a = 0 →
        (blend_images ⟨1, 1, 4, fun _ _ => ⟨9, 9, 9, 9⟩⟩
            ⟨1, 1, 4, fun _ _ => ⟨1, 2, 3, 50⟩⟩).pix 0 0 =
          { (⟨1, 1, 4, fun _ _ => ⟨9, 9, 9, 9⟩⟩ : Img).pix 0 0 with a := 255 }) :=
  alpha_test_blend (fun _ _ _ _ _ => emptyPix)
    ⟨1, 1, 4, fun _ _ => ⟨9, 9, 9, 9⟩⟩ ⟨1, 1, 4, fun _ _ => ⟨1, 2, 3, 50⟩⟩
    rfl rfl rfl rfl 0 0 (by decide) (by decide)

/-- At equal canvas/overlay dimensions the cover scale is exactly 1, so
the placement is the identity window (no offset, full-canvas window). -/
theorem placement_eq_dims (cw ch : ℕ) (hcw : 0 < cw) (hch : 0 < ch) :
    placement cw ch cw ch =
      { new_width := cw, new_height := ch, offset_x := 0, offset_y := 0,
        y_start := 0, y_end := ch, x_start := 0, x_end := cw,
        img_y_start := 0, img_x_start := 0 } := by
  have hcw' : ((cw : ℚ)) ≠ 0 := by positivity
  have hch' : ((ch : ℚ)) ≠ 0 := by positivity
  have h1 : coverScale cw ch cw ch = 1 := by
    rw [coverScale, div_self hcw', div_self hch', max_self]
  have h2 : scaledW cw ch cw ch = cw := by
    rw [scaledW, h1, mul_one, Int.floor_natCast, Int.toNat_natCast]
  have h3 : scaledH cw ch cw ch = ch := by
    rw [scaledH, h1, mul_one, Int.floor_natCast, Int.toNat_natCast]
  have h4 : Int.fdiv ((cw : ℤ) - (cw : ℤ)) 2 = 0 := by
    rw [sub_self]
    rfl
  have h5 : Int.fdiv ((ch : ℤ) - (ch : ℤ)) 2 = 0 := by
    rw [sub_self]
    rfl
  simp only [placement, h2, h3, h4, h5]
  congr 1 <;> simp

/-- Pixel evaluation of `blend_on_canvas` in the same-size RGBA branch. -/
theorem blend_on_canvas_pix_same_rgba (f : Resizer) (canvas overlay : Img)
    (hh : (ensureRGBA canvas).height = overlay.height)
    (hw : (ensureRGBA canvas).width = overlay.width)
    (h4 : overlay.channels = 4) (y x : ℕ) :
    (blend_on_canvas f canvas overlay).pix y x =
      if 0 < (overlay.pix y x).a then overlay.pix y x
      else (ensureRGBA canvas).pix y x := by
  rw [blend_on_canvas]
  rw [if_pos ⟨hh, hw⟩, if_pos h4]

/-- Pixel evaluation of `blend_on_canvas` in the same-size RGB branch:
RGB is copied, the canvas alpha is kept. -/
theorem blend_on_canvas_pix_same_rgb (f : Resizer) (canvas overlay : Img)
    (hh : (ensureRGBA canvas).height = overlay.height)
    (hw : (ensureRGBA canvas).width = overlay.width)
    (h4 : ¬ overlay.channels = 4) (y x : ℕ) :
    (blend_on_canvas f canvas overlay).pix y x =
      { overlay.pix y x with a := ((ensureRGBA canvas).pix y x).a } := by
  rw [blend_on_canvas]
  rw [if_pos ⟨hh, hw⟩, if_neg h4]

/-- Pixel evaluation of `blend_on_canvas` in the scaling branch. -/
theorem blend_on_canvas_pix_scaled (f : Resizer) (canvas overlay : Img)
    (hne : ¬((ensureRGBA canvas).height = overlay.height ∧
             (ensureRGBA canvas).width = overlay.width)) (y x : ℕ) :
    (blend_on_canvas f canvas overlay).pix y x =
      if (placement (ensureRGBA canvas).width (ensureRGBA canvas).height
            overlay.width overlay.height).y_start ≤ (y : ℤ) ∧
         (y : ℤ) < (placement (ensureRGBA canvas).width (ensureRGBA canvas).height
            overlay.width overlay.height).y_end ∧
         (placement (ensureRGBA canvas).width (ensureRGBA canvas).height
            overlay.width overlay.height).x_start ≤ (x : ℤ) ∧
         (x : ℤ) < (placement (ensureRGBA canvas).width (ensureRGBA canvas).height
            overlay.width overlay.height).x_end ∧
         0 < (pilResize f (ensureRGBA overlay)
                (placement (ensureRGBA canvas).width (ensureRGBA canvas).height
                  overlay.width overlay.height).new_width
                (placement (ensureRGBA canvas).width (ensureRGBA canvas).height
                  overlay.width overlay.height).new_height
                ((placement (ensureRGBA canvas).width (ensureRGBA canvas).height
                    overlay.width overlay.height).img_y_start +
                  ((y : ℤ) - (placement (ensureRGBA canvas).width (ensureRGBA canvas).height
                    overlay.width overlay.height).y_start)).toNat
                ((placement (ensureRGBA canvas).width (ensureRGBA canvas).height
                    overlay.width overlay.height).img_x_start +
                  ((x : ℤ) - (placement (ensureRGBA canvas).width (ensureRGBA canvas).height
                    overlay.width overlay.height).x_start)).toNat).a then
        pilResize f (ensureRGBA overlay)
          (placement (ensureRGBA canvas).width (ensureRGBA canvas).height
            overlay.width overlay.height).new_width
          (placement (ensureRGBA canvas).width (ensureRGBA canvas).height
            overlay.width overlay.height).new_height
          ((placement (ensureRGBA canvas).width (ensureRGBA canvas).height
              overlay.width overlay.height).img_y_start +
            ((y : ℤ) - (placement (ensureRGBA canvas).width (ensureRGBA canvas).height
              overlay.width overlay.height).y_start)).toNat
          ((placement (ensureRGBA canvas).width (ensureRGBA canvas).height
              overlay.width overlay.height).img_x_start +
            ((x : ℤ) - (placement (ensureRGBA canvas).width (ensureRGBA canvas).height
              overlay.width overlay.height).x_start)).toNat
      else (ensureRGBA canvas).pix y x := by
  rw [blend_on_canvas]
  rw [if_neg hne]

/-- Pixel evaluation of the prepared overlay: the scaled overlay inside
the placement window, fully transparent zeros outside. -/
theorem prepare_snd_pix (f : Resizer) (canvas overlay : Img) (y x : ℕ) :
    (prepare_blend_images f canvas overlay).2.pix y x =
      if (placement canvas.width canvas.height
            overlay.width overlay.height).y_start ≤ (y : ℤ) ∧
         (y : ℤ) < (placement canvas.width canvas.height
            overlay.width overlay.height).y_end ∧
         (placement canvas.width canvas.height
            overlay.width overlay.height).x_start ≤ (x : ℤ) ∧
         (x : ℤ) < (placement canvas.width canvas.height
            overlay.width overlay.height).x_end then
        pilResize f (ensureRGBA overlay)
          (placement canvas.width canvas.height
            overlay.width overlay.height).new_width
          (placement canvas.width canvas.height
            overlay.width overlay.height).new_height
          ((placement canvas.width canvas.height
              overlay.width overlay.height).img_y_start +
            ((y : ℤ) - (placement canvas.width canvas.height
              overlay.width overlay.height).y_start)).toNat
          ((placement canvas.width canvas.height
              overlay.width overlay.height).img_x_start +
            ((x : ℤ) - (placement canvas.width canvas.height
              overlay.width overlay.height).x_start)).toNat
      else ⟨0, 0, 0, 0⟩ := rfl

/-- The prepared overlay has the canvas height (`np.zeros_like`). -/
theorem prepare_snd_height (f : Resizer) (canvas overlay : Img) :
    (prepare_blend_images f canvas overlay).2.height = (ensureRGBA canvas).height := rfl

/-- The prepared overlay has the canvas width. -/
theorem prepare_snd_width (f : Resizer) (canvas overlay : Img) :
    (prepare_blend_images f canvas overlay).2.width = (ensureRGBA canvas).width := rfl

/-- The prepared overlay has the canvas channel count. -/
theorem prepare_snd_channels (f : Resizer) (canvas overlay : Img) :
    (prepare_blend_images f canvas overlay).2.channels = (ensureRGBA canvas).channels := rfl

/-- `blend_on_canvas` preserves the canvas height. -/
theorem blend_on_canvas_height (f : Resizer) (canvas overlay : Img) :
    (blend_on_canvas f canvas overlay).height = (ensureRGBA canvas).height := by
  rw [blend_on_canvas]
  split_ifs <;> rfl

/-- `blend_on_canvas` preserves the canvas width. -/
theorem blend_on_canvas_width (f : Resizer) (canvas overlay : Img) :
    (blend_on_canvas f canvas overlay).width = (ensureRGBA canvas).width := by
  rw [blend_on_canvas]
  split_ifs <;> rfl

/-- `blend_on_canvas` keeps the promoted canvas's channel count. -/
theorem blend_on_canvas_channels (f : Resizer) (canvas overlay : Img) :
    (blend_on_canvas f canvas overlay).channels = (ensureRGBA canvas).channels := by
  rw [blend_on_canvas]
  split_ifs <;> rfl

/-- C6 (amended): `prepare_blend_images` and `blend_on_canvas` use
identical scale and offset math, and alpha-test blending the prepared
overlay onto the canvas equals blending the overlay directly whenever
the overlay is RGBA or the dimensions differ; the exception forced by
the counterexample is an RGB overlay of exactly canvas size, where the
direct path preserves the canvas's alpha channel while the prepared
path overwrites it with 255. The resampling kernel `f` is arbitrary. -/
theorem prepare_then_blend_eq_direct (f : Resizer) (canvas overlay : Img)
    (hcc : canvas.channels = 3 ∨ canvas.channels = 4)
    (how : 0 < overlay.width) (hoh : 0 < overlay.height)
    (hro : overlay.channels = 4 ∨
      ¬(canvas.height = overlay.height ∧ canvas.width = overlay.width)) :
    ImgEq (blend_on_canvas f canvas (prepare_blend_images f canvas overlay).2)
          (blend_on_canvas f canvas overlay) := by
  have hH := ensureRGBA_height canvas
  have hW := ensureRGBA_width canvas
  have h4 : (ensureRGBA canvas).channels = 4 := ensureRGBA_channels canvas hcc
  refine ⟨?_, ?_, ?_, ?_⟩
  · rw [blend_on_canvas_height, blend_on_canvas_height]
  · rw [blend_on_canvas_width, blend_on_canvas_width]
  · rw [blend_on_canvas_channels, blend_on_canvas_channels]
  · intro y x hy hx
    rw [blend_on_canvas_height f canvas _, hH] at hy
    rw [blend_on_canvas_width f canvas _, hW] at hx
    rw [blend_on_canvas_pix_same_rgba f canvas _
      (prepare_snd_height f canvas overlay).symm
      (prepare_snd_width f canvas overlay).symm
      (by rw [prepare_snd_channels]; exact h4)]
    rw [prepare_snd_pix]
    by_cases hd : canvas.height = overlay.height ∧ canvas.width = overlay.width
    · have ho4 : overlay.channels = 4 := by
        rcases hro with h | h
        · exact h
        · exact absurd hd h
      obtain ⟨he, hwd⟩ := hd
      rw [blend_on_canvas_pix_same_rgba f canvas overlay (by rw [hH]; exact he)
        (by rw [hW]; exact hwd) ho4]
      have hpl : placement canvas.width canvas.height overlay.width overlay.height =
          { new_width := canvas.width, new_height := canvas.height, offset_x := 0,
            offset_y := 0, y_start := 0, y_end := (canvas.height : ℤ), x_start := 0,
            x_end := (canvas.width : ℤ), img_y_start := 0, img_x_start := 0 } := by
        rw [← he, ← hwd]
        exact placement_eq_dims canvas.width canvas.height (hwd ▸ how) (he ▸ hoh)
      rw [hpl]
      have hres : pilResize f (ensureRGBA overlay) canvas.width canvas.height =
          overlay.pix := by
        rw [ensureRGBA_of_four overlay ho4, pilResize, if_pos ⟨hwd.symm, he.symm⟩]
      simp only [hres]
      have hwin : (0 : ℤ) ≤ (y : ℤ) ∧ (y : ℤ) < (canvas.height : ℤ) ∧
          (0 : ℤ) ≤ (x : ℤ) ∧ (x : ℤ) < (canvas.width : ℤ) :=
        ⟨Int.natCast_nonneg y, by exact_mod_cast hy, Int.natCast_nonneg x,
          by exact_mod_cast hx⟩
      rw [if_pos hwin]
      have hiy : ((0 : ℤ) + ((y : ℤ) - 0)).toNat = y := by
        rw [zero_add, sub_zero, Int.toNat_natCast]
      have hix : ((0 : ℤ) + ((x : ℤ) - 0)).toNat = x := by
        rw [zero_add, sub_zero, Int.toNat_natCast]
      rw [hiy, hix]
    · have hne : ¬((ensureRGBA canvas).height = overlay.height ∧
          (ensureRGBA canvas).width = overlay.width) := by
        rw [hH, hW]; exact hd
      rw [blend_on_canvas_pix_scaled f canvas overlay hne]
      rw [hH, hW]
      by_cases hwin : (placement canvas.width canvas.height overlay.width
            overlay.height).y_start ≤ (y : ℤ) ∧
          (y : ℤ) < (placement canvas.width canvas.height overlay.width
            overlay.height).y_end ∧
          (placement canvas.width canvas.height overlay.width
            overlay.height).x_start ≤ (x : ℤ) ∧
          (x : ℤ) < (placement canvas.width canvas.height overlay.width
            overlay.height).x_end
      · rw [if_pos hwin]
        by_cases hal : 0 < (pilResize f (ensureRGBA overlay)
            (placement canvas.width canvas.height overlay.width
              overlay.height).new_width
            (placement canvas.width canvas.height overlay.width
              overlay.height).new_height
            ((placement canvas.width canvas.height overlay.width
                overlay.height).img_y_start +
              ((y : ℤ) - (placement canvas.width canvas.height overlay.width
                overlay.height).y_start)).toNat
            ((placement canvas.width canvas.height overlay.width
                overlay.height).img_x_start +
              ((x : ℤ) - (placement canvas.width canvas.height overlay.width
                overlay.height).x_start)).toNat).a
        · rw [if_pos hal, if_pos ⟨hwin.1, hwin.2.1, hwin.2.2.1, hwin.2.2.2, hal⟩]
        · rw [if_neg hal, if_neg (by tauto)]
      · rw [if_neg hwin, if_neg (by tauto), if_neg (by tauto)]

/-- Counterexample to C6 as stated: on a 1×1 RGBA canvas with alpha 7
and a 1×1 RGB overlay, blending the prepared overlay yields alpha 255
while blending the overlay directly yields alpha 7, so the two paths
are not interchangeable for every canvas and overlay. -/
theorem prepare_then_blend_rgb_counterexample :
    ((blend_on_canvas (fun _ _ _ _ _ => emptyPix)
        ⟨1, 1, 4, fun _ _ => ⟨10, 20, 30, 7⟩⟩
        (prepare_blend_images (fun _ _ _ _ _ => emptyPix)
          ⟨1, 1, 4, fun _ _ => ⟨10, 20, 30, 7⟩⟩
          ⟨1, 1, 3, fun _ _ => ⟨1, 2, 3, 0⟩⟩).2).pix 0 0).a = 255 ∧
    ((blend_on_canvas (fun _ _ _ _ _ => emptyPix)
        ⟨1, 1, 4, fun _ _ => ⟨10, 20, 30, 7⟩⟩
        ⟨1, 1, 3, fun _ _ => ⟨1, 2, 3, 0⟩⟩).pix 0 0).a = 7 := by
  constructor
  · have hstep := blend_on_canvas_pix_same_rgba (fun _ _ _ _ _ => emptyPix)
      ⟨1, 1, 4, fun _ _ => ⟨10, 20, 30, 7⟩⟩
      ((prepare_blend_images (fun _ _ _ _ _ => emptyPix)
          ⟨1, 1, 4, fun _ _ => ⟨10, 20, 30, 7⟩⟩
          ⟨1, 1, 3, fun _ _ => ⟨1, 2, 3, 0⟩⟩).2)
      rfl rfl rfl 0 0
    rw [hstep, prepare_snd_pix]
    rw [placement_eq_dims 1 1 (by norm_num) (by norm_num)]
    simp only [pilResize, ensureRGBA]
    norm_num
  · decide

/-- Witness for the amended C6 at concrete equal-size RGBA images. -/
theorem prepare_then_blend_eq_direct_witness :
    ImgEq (blend_on_canvas (fun _ _ _ _ _ => emptyPix)
            ⟨1, 1, 4, fun _ _ => ⟨10, 20, 30, 7⟩⟩
            (prepare_blend_images (fun _ _ _ _ _ => emptyPix)
              ⟨1, 1, 4, fun _ _ => ⟨10, 20, 30, 7⟩⟩
              ⟨1, 1, 4, fun _ _ => ⟨1, 2, 3, 9⟩⟩).2)
          (blend_on_canvas (fun _ _ _ _ _ => emptyPix)
            ⟨1, 1, 4, fun _ _ => ⟨10, 20, 30, 7⟩⟩
            ⟨1, 1, 4, fun _ _ => ⟨1, 2, 3, 9⟩⟩) :=
  prepare_then_blend_eq_direct (fun _ _ _ _ _ => emptyPix)
    ⟨1, 1, 4, fun _ _ => ⟨10, 20, 30, 7⟩⟩ ⟨1, 1, 4, fun _ _ => ⟨1, 2, 3, 9⟩⟩
    (Or.inr rfl) (by norm_num) (by norm_num) (Or.inl rfl)
